import Mathlib

/-!
Verification of the cli-autocomplete-tool prediction core.

The Python sources are shallowly embedded below:
- `tokenize_command_line`, `extract_command_context`, `filter_suggestions`,
  `rank_suggestions`, `create_cache_key` from `core/utils.py`;
- `COMMANDS`, `predict_rule_based` from `core/predictor.py`;
- `CacheManager` from `core/cache_manager.py`;
- `parse_context` from `core/context_parser.py` (its `shlex.split` call is
  modelled by `shlexSplit`).

Strings are embedded as `List Char`; Python `dict`s (which preserve
insertion order) as ordered association lists; `time.time()` as an explicit
`Nat` parameter `now`; the process-global cache singleton as an explicitly
threaded `CacheManager` state.  Python code that raises is embedded as an
`Option`-returning function (`none` = exception).
-/

/-- A Python string, embedded as its list of characters. -/
abbrev Tok := List Char

/-- Coerce a Lean string literal to a `Tok`. -/
def strL (s : String) : Tok := s.data

/-- The single-quote character (written via its code point to keep source
lexically simple). -/
def squote : Char := Char.ofNat 39

/-- The double-quote character. -/
def dquote : Char := Char.ofNat 34

/-- The backslash character. -/
def bslash : Char := Char.ofNat 92

/-- Python's `str.isspace` restricted to the ASCII whitespace characters
(space, tab, newline, vertical tab, form feed, carriage return). -/
def pyIsSpace (c : Char) : Bool :=
  c = ' ' || c = '\t' || c = '\n' || c = '\x0b' || c = '\x0c' || c = '\r'

/-- Python's `str.lower`, character-wise (ASCII). -/
def lower (s : Tok) : Tok := s.map Char.toLower

/-- Python `l[:i]` for an `Int` index: non-negative indices take a prefix,
negative indices count from the end (clamped at 0). -/
def pySlice (l : Tok) (i : Int) : Tok :=
  if 0 ≤ i then l.take i.toNat else l.take ((l.length : Int) + i).toNat

/-- Loop body of `tokenize_command_line` (`core/utils.py` lines 48-75):
state is (accumulated tokens, current token buffer, in_quotes, quote_char). -/
def tokGo : List Char → List Tok → Tok → Bool → Option Char → List Tok
  | [], toks, cur, _, _ => if cur = [] then toks else toks ++ [cur]
  | c :: rest, toks, cur, inQ, qc =>
    if c = dquote ∨ c = squote then
      if ¬inQ then tokGo rest toks cur true (some c)
      else if some c = qc then tokGo rest toks cur false none
      else tokGo rest toks (cur ++ [c]) inQ qc
    else if pyIsSpace c ∧ ¬inQ then
      if cur = [] then tokGo rest toks [] inQ qc
      else tokGo rest (toks ++ [cur]) [] inQ qc
    else tokGo rest toks (cur ++ [c]) inQ qc

/-- `tokenize_command_line` from `core/utils.py`: split a line into words,
respecting (and stripping) paired quotes; an unclosed quote degrades
gracefully, and the final non-empty buffer is flushed. -/
def tokenize_command_line (line : Tok) : List Tok :=
  if line = [] then [] else tokGo line [] [] false none

/-- Backward word-start scan of `extract_command_context` (lines 113-117):
`wordStartGo line (i+1) ws` processes index `i`; a whitespace character at
`i` stops the scan with `i+1`, otherwise `word_start` becomes `i` and the
scan continues.  Called with both counters equal to the cursor. -/
def wordStartGo (line : Tok) : Nat → Nat → Nat
  | 0, ws => ws
  | i + 1, _ => if pyIsSpace (line.getD i 'a') then i + 1 else wordStartGo line i i

/-- Forward word-end scan of `extract_command_context` (lines 120-124):
scan the characters from the cursor on; the first whitespace index is the
word end, otherwise the end advances past each character. -/
def wordEndScan : List Char → Nat → Nat
  | [], i => i
  | c :: rest, i => if pyIsSpace c then i else wordEndScan rest (i + 1)

/-- The context dictionary built by `extract_command_context`.
(The degenerate early return in the Python code omits the `tokens` key; the
embedding uses `[]` there.) -/
structure CommandContext where
  command : Option Tok
  subcommand : Option Tok
  args : List Tok
  current_word : Tok
  word_start : Nat
  word_end : Nat
  tokens : List Tok
deriving DecidableEq, Repr

/-- Does a token end with a space character (Python `endswith(' ')`)? -/
def endsWithSpace (t : Tok) : Bool := t.getLast? = some ' '

/-- `extract_command_context` from `core/utils.py` lines 78-149.
`none` models the `IndexError` the Python code raises when the cursor lies
beyond the end of a non-empty line (the backward scan indexes `line[i]`
out of range); all in-range inputs return `some` context. -/
def extract_command_context (line : Tok) (cursor_pos : Int) : Option CommandContext :=
  if line = [] ∨ cursor_pos < 0 then
    some ⟨none, none, [], [], 0, 0, []⟩
  else
    let cursor := cursor_pos.toNat
    if cursor ≤ line.length then
      let toks := tokenize_command_line (line.take cursor)
      let ws := wordStartGo line cursor cursor
      let we := wordEndScan (line.drop cursor) cursor
      let cw0 := (line.drop ws).take (we - ws)
      let cw :=
        if cursor = line.length ∧ cw0 ≠ [] ∧ ¬endsWithSpace cw0 then
          if 0 < cursor ∧ ¬pyIsSpace (line.getD (cursor - 1) 'a') then [] else cw0
        else cw0
      some ⟨toks.head?, toks.get? 1, toks.drop 2, cw, ws, we, toks⟩
    else none

/-- `filter_suggestions` from `core/utils.py` lines 152-173: with a
non-empty current word keep the suggestions whose lowercase form starts
with the lowercase current word. -/
def filter_suggestions (suggestions : List Tok) (current_word : Tok) : List Tok :=
  if current_word = [] then suggestions
  else suggestions.filter (fun s => (lower current_word).isPrefixOf (lower s))

/-- Bucket index assigned by the loop of `rank_suggestions`:
0 = case-insensitively equal to the current word, 1 = proper
case-insensitive extension, 2 = everything else. -/
def rankBucket (cwLower : Tok) (s : Tok) : Nat :=
  if lower s = cwLower then 0
  else if cwLower.isPrefixOf (lower s) then 1
  else 2

/-- `rank_suggestions` from `core/utils.py` lines 176-208 (the single pass
with three accumulators is a stable three-way partition, embedded as three
order-preserving filters).  The Python function reads the current word out
of the context dictionary; it is passed directly here. -/
def rank_suggestions (suggestions : List Tok) (current_word : Tok) : List Tok :=
  if suggestions = [] then []
  else
    (suggestions.filter (fun s => rankBucket (lower current_word) s = 0)) ++
    (suggestions.filter (fun s => rankBucket (lower current_word) s = 1)) ++
    (suggestions.filter (fun s => rankBucket (lower current_word) s = 2))

/-- `create_cache_key` from `core/utils.py` lines 235-251: join command,
subcommand (absent mapped to the empty string by `or ''`) and the args
with the separator `|`. -/
def create_cache_key (ctx : CommandContext) : Tok :=
  List.intercalate ['|'] ([ctx.command.getD [], ctx.subcommand.getD []] ++ ctx.args)

/-- One entry of the `COMMANDS` table of `core/predictor.py`: the
subcommand list and the subcommand-to-flags mapping. -/
structure CommandData where
  subcommands : List Tok
  flags : List (Tok × List Tok)
deriving DecidableEq, Repr

/-- First-match lookup in an ordered association list (Python `dict.get`). -/
def alGet {β : Type} (m : List (Tok × β)) (k : Tok) : Option β :=
  (m.find? (fun p => p.1 = k)).map (fun p => p.2)

/-- `dict.get` with a default value. -/
def alGetD {β : Type} (m : List (Tok × β)) (k : Tok) (d : β) : β :=
  (alGet m k).getD d

/-- The `COMMANDS` knowledge base of `core/predictor.py` lines 14-74. -/
def COMMANDS : List (Tok × CommandData) :=
  [ (strL "git",
     ⟨[strL "add", strL "commit", strL "push", strL "pull", strL "status",
       strL "checkout", strL "branch", strL "merge", strL "log", strL "diff"],
      [ (strL "add", [strL "-A", strL "--all", strL "-p", strL "--patch", strL "-u", strL "--update"]),
        (strL "commit", [strL "-m", strL "--message", strL "--amend", strL "--signoff", strL "-a", strL "--all"]),
        (strL "push", [strL "-u", strL "--set-upstream", strL "--force", strL "-f", strL "--delete"]),
        (strL "pull", [strL "--rebase", strL "--ff-only", strL "--no-ff"]),
        (strL "status", [strL "-s", strL "--short", strL "-b", strL "--branch", strL "--porcelain"]),
        (strL "checkout", [strL "-b", strL "--branch", strL "-f", strL "--force", strL "--track"]),
        (strL "branch", [strL "-d", strL "--delete", strL "-m", strL "--move", strL "-r", strL "--remote"]),
        (strL "log", [strL "--oneline", strL "--graph", strL "--decorate", strL "-n", strL "--max-count"]),
        (strL "diff", [strL "--cached", strL "--staged", strL "-w", strL "--ignore-all-space"]) ]⟩),
    (strL "docker",
     ⟨[strL "run", strL "build", strL "pull", strL "push", strL "exec", strL "ps",
       strL "images", strL "logs", strL "stop", strL "rm"],
      [ (strL "run", [strL "-d", strL "--detach", strL "--rm", strL "-it", strL "--interactive", strL "--tty", strL "-p", strL "--publish"]),
        (strL "build", [strL "-t", strL "--tag", strL "-f", strL "--file", strL "--no-cache", strL "--pull"]),
        (strL "pull", [strL "-a", strL "--all-tags", strL "--platform"]),
        (strL "push", [strL "-a", strL "--all-tags"]),
        (strL "exec", [strL "-it", strL "--interactive", strL "--tty", strL "-u", strL "--user"]),
        (strL "ps", [strL "-a", strL "--all", strL "-q", strL "--quiet", strL "--format"]),
        (strL "images", [strL "-a", strL "--all", strL "-q", strL "--quiet", strL "--filter"]),
        (strL "logs", [strL "-f", strL "--follow", strL "-t", strL "--timestamps", strL "--tail"]),
        (strL "stop", [strL "-t", strL "--time"]),
        (strL "rm", [strL "-f", strL "--force", strL "-v", strL "--volumes"]) ]⟩),
    (strL "ls", ⟨[], [([], [strL "-l", strL "--long", strL "-a", strL "--all", strL "-h", strL "--human-readable", strL "--color", strL "-R", strL "--recursive"])]⟩),
    (strL "cd", ⟨[], [([], [strL "-", strL "-L", strL "-P"])]⟩),
    (strL "cp", ⟨[], [([], [strL "-r", strL "--recursive", strL "-v", strL "--verbose", strL "-f", strL "--force", strL "-i", strL "--interactive"])]⟩),
    (strL "mv", ⟨[], [([], [strL "-v", strL "--verbose", strL "-f", strL "--force", strL "-i", strL "--interactive", strL "-n", strL "--no-clobber"])]⟩),
    (strL "rm", ⟨[], [([], [strL "-r", strL "--recursive", strL "-f", strL "--force", strL "-i", strL "--interactive", strL "-v", strL "--verbose"])]⟩) ]

/-- The flag-appending loop of `predict_rule_based` lines 118-119: Python
iterates over `suggestions` while extending it, so the appended flags are
themselves scanned (and contribute `flags.get(flag, []) = []` for the
data above).  `i` is the iteration index; the fuel bounds the number of
iterations (the Python loop need not terminate on adversarial flag
tables; on every input appearing in this development the fuel is never
exhausted). -/
def extendLoop (flags : List (Tok × List Tok)) : Nat → List Tok → Nat → List Tok
  | 0, sugg, _ => sugg
  | fuel + 1, sugg, i =>
    match sugg.get? i with
    | none => sugg
    | some x => extendLoop flags fuel (sugg ++ alGetD flags x []) (i + 1)

/-- The raw-candidate computation of `predict_rule_based`
(`core/predictor.py` lines 94-124), before filtering and ranking. -/
def rawCandidates (ctx : CommandContext) : List Tok :=
  match ctx.command with
  | none => COMMANDS.map (fun p => p.1)
  | some cmd =>
    match alGet COMMANDS cmd with
    | none => []
    | some data =>
      match ctx.subcommand with
      | none => data.subcommands ++ alGetD data.flags [] []
      | some sub =>
        let matching := data.subcommands.filter (fun s => sub.isPrefixOf s)
        if matching = [] then
          alGetD data.flags sub [] ++ alGetD data.flags [] []
        else
          extendLoop data.flags 1000000 matching 0 ++ alGetD data.flags [] []

/-- A cache entry (`CacheManager.set`, `core/cache_manager.py` lines 92-98). -/
structure CacheEntry where
  suggestions : List Tok
  created : Nat
  last_used : Nat
  hit_count : Nat
  ttl : Nat
deriving DecidableEq, Repr

/-- The `CacheManager` state (`core/cache_manager.py`): the in-memory
dict `cache` (an ordered association list, as Python dicts preserve
insertion order) and the backing-store file content `stored`. -/
structure CacheManager where
  max_size : Nat
  cache : List (Tok × CacheEntry)
  stored : List (Tok × CacheEntry)
deriving DecidableEq, Repr

/-- Default `max_size` of `CacheManager.__init__`. -/
def defaultMaxSize : Nat := 1000

/-- A fresh cache manager with an empty backing store. -/
def emptyCM : CacheManager := ⟨defaultMaxSize, [], []⟩

/-- Dict lookup (`key in self.cache` / `self.cache[key]`). -/
def dictLookup (m : List (Tok × CacheEntry)) (k : Tok) : Option CacheEntry :=
  (m.find? (fun p => p.1 = k)).map (fun p => p.2)

/-- Dict assignment `self.cache[key] = entry`: replace in place when the
key is present (Python dicts keep the original position), append
otherwise. -/
def dictInsert (m : List (Tok × CacheEntry)) (k : Tok) (v : CacheEntry) :
    List (Tok × CacheEntry) :=
  if m.any (fun p => p.1 = k) then
    m.map (fun p => if p.1 = k then (p.1, v) else p)
  else m ++ [(k, v)]

/-- `CacheManager._save_cache` (lines 45-52): write the whole in-memory
cache to the backing store (the success path; an `IOError` is swallowed). -/
def CacheManager.save (cm : CacheManager) : CacheManager :=
  { cm with stored := cm.cache }

/-- Comparison used by `_cleanup_cache`: ascending `last_used`. -/
def leLastUsed (a b : Tok × CacheEntry) : Bool :=
  a.2.last_used ≤ b.2.last_used

/-- Python `l[-n:]` for a natural `n`: the last `n` elements — except
that for `n = 0` the slice `l[-0:]` is `l[0:]`, i.e. the whole list, not
the empty one. -/
def pySuffix {α : Type} (l : List α) (n : Nat) : List α :=
  if n = 0 then l else l.drop (l.length - n)

/-- `CacheManager._cleanup_cache` (lines 54-63): when the entry count
exceeds `max_size`, stable-sort by `last_used` ascending and keep the
slice `sorted_items[-max_size:]`.  Note the Python slicing pitfall kept
by `pySuffix`: with `max_size = 0` the slice `[-0:]` keeps every entry,
so no eviction happens at all. -/
def CacheManager.cleanup (cm : CacheManager) : CacheManager :=
  if cm.cache.length > cm.max_size then
    { cm with cache := pySuffix (cm.cache.mergeSort leLastUsed) cm.max_size }
  else cm

/-- `CacheManager.get` (lines 65-81): on a present key refresh
`last_used` and `hit_count` in place and return the stored suggestions,
else return `none`.  No expiry check and no save happen here. -/
def CacheManager.get (cm : CacheManager) (key : Tok) (now : Nat) :
    Option (List Tok) × CacheManager :=
  match dictLookup cm.cache key with
  | some e =>
    (some e.suggestions,
     { cm with cache := cm.cache.map (fun p =>
        if p.1 = key then (p.1, { e with last_used := now, hit_count := e.hit_count + 1 }) else p) })
  | none => (none, cm)

/-- `CacheManager.set` (lines 83-100): overwrite the entry with fresh
timestamps, a zeroed hit counter and the given ttl, then evict, then
persist. -/
def CacheManager.set (cm : CacheManager) (key : Tok) (suggestions : List Tok)
    (ttl : Nat) (now : Nat) : CacheManager :=
  CacheManager.save (CacheManager.cleanup
    { cm with cache := dictInsert cm.cache key ⟨suggestions, now, now, 0, ttl⟩ })

/-- `CacheManager.invalidate` (lines 102-106): delete a present key and
persist; do nothing for an absent key. -/
def CacheManager.invalidate (cm : CacheManager) (key : Tok) : CacheManager :=
  if (dictLookup cm.cache key).isSome then
    CacheManager.save { cm with cache := cm.cache.filter (fun p => ¬(p.1 = key)) }
  else cm

/-- `CacheManager.clear` (lines 108-111). -/
def CacheManager.clear (cm : CacheManager) : CacheManager :=
  CacheManager.save { cm with cache := [] }

/-- `CacheManager.cleanup_expired` (lines 125-140): drop every entry whose
age exceeds its ttl; persist only when something was dropped. -/
def CacheManager.cleanup_expired (cm : CacheManager) (now : Nat) : CacheManager :=
  if cm.cache.any (fun p => (now : Int) - p.2.created > p.2.ttl) then
    CacheManager.save
      { cm with cache := cm.cache.filter (fun p => ¬((now : Int) - p.2.created > p.2.ttl)) }
  else cm

/-- `predict_rule_based` from `core/predictor.py` lines 76-136, with the
process-global cache manager threaded explicitly: on a hit return the
cached list unchanged; on a miss compute the raw candidates, filter by a
non-empty `current_word`, rank, store the result (ttl 3600) and return it. -/
def predict_rule_based (ctx : CommandContext) (cm : CacheManager) (now : Nat) :
    List Tok × CacheManager :=
  match CacheManager.get cm (create_cache_key ctx) now with
  | (some cached, cm1) => (cached, cm1)
  | (none, cm1) =>
    let raw := rawCandidates ctx
    let filtered := if ctx.current_word ≠ [] then filter_suggestions raw ctx.current_word else raw
    let ranked := rank_suggestions filtered ctx.current_word
    (ranked, CacheManager.set cm1 (create_cache_key ctx) ranked 3600 now)

/-- Lexer state of the `shlexSplit` model: outside quotes, inside a
quoted run, after an escape character outside quotes, or after an escape
character inside a double-quoted run. -/
inductive ShlexState where
  | plain : ShlexState
  | quoted : Char → ShlexState
  | escaped : ShlexState
  | quotedEscaped : ShlexState
deriving DecidableEq, Repr

/-- The whitespace characters of Python's `shlex` lexer. -/
def shlexWs : List Char := [' ', '\t', '\r', '\n']

/-- Modelled from Python's standard library: the state machine of
`shlex.split(s)` (POSIX mode, `whitespace_split=True`, comments
disabled), as called by `parse_context`.  The current token is `none`
when no token has been started (a closed empty quote yields `some []`,
i.e. an empty token).  `none` overall models the `ValueError` raised on
an unclosed quote or a trailing escape character. -/
def shlexGo : List Char → ShlexState → List Tok → Option Tok → Option (List Tok)
  | [], .plain, toks, cur => some (toks ++ cur.toList)
  | [], _, _, _ => none
  | c :: rest, .plain, toks, cur =>
    if c ∈ shlexWs then
      match cur with
      | none => shlexGo rest .plain toks none
      | some t => shlexGo rest .plain (toks ++ [t]) none
    else if c = dquote ∨ c = squote then
      shlexGo rest (.quoted c) toks (some (cur.getD []))
    else if c = bslash then
      shlexGo rest .escaped toks (some (cur.getD []))
    else
      shlexGo rest .plain toks (some (cur.getD [] ++ [c]))
  | c :: rest, .escaped, toks, cur =>
    shlexGo rest .plain toks (some (cur.getD [] ++ [c]))
  | c :: rest, .quoted q, toks, cur =>
    if c = q then shlexGo rest .plain toks cur
    else if q = dquote ∧ c = bslash then shlexGo rest .quotedEscaped toks cur
    else shlexGo rest (.quoted q) toks (some (cur.getD [] ++ [c]))
  | c :: rest, .quotedEscaped, toks, cur =>
    if c = bslash ∨ c = dquote then
      shlexGo rest (.quoted dquote) toks (some (cur.getD [] ++ [c]))
    else
      shlexGo rest (.quoted dquote) toks (some (cur.getD [] ++ [bslash, c]))

/-- `shlex.split` as used by `parse_context`. -/
def shlexSplit (l : Tok) : Option (List Tok) := shlexGo l .plain [] none

/-- Loop of Python's `str.split()` (no separator): split on runs of
whitespace, discarding empty pieces. -/
def pySplitGo : List Char → List Tok → Tok → List Tok
  | [], toks, cur => if cur = [] then toks else toks ++ [cur]
  | c :: rest, toks, cur =>
    if pyIsSpace c then
      if cur = [] then pySplitGo rest toks [] else pySplitGo rest (toks ++ [cur]) []
    else pySplitGo rest toks (cur ++ [c])

/-- Python `s.split()`. -/
def pySplit (l : Tok) : List Tok := pySplitGo l [] []

/-- Python `s.strip()`: drop ASCII whitespace from both ends. -/
def pyStrip (l : Tok) : Tok :=
  ((l.dropWhile pyIsSpace).reverse.dropWhile pyIsSpace).reverse

/-- The context dictionary built by `parse_context`
(`core/context_parser.py`). -/
structure ParsedContext where
  command : Option Tok
  subcommand : Option Tok
  args : List Tok
deriving DecidableEq, Repr

/-- `parse_context` from `core/context_parser.py` lines 4-28: tokenize the
prefix up to the cursor with `shlex.split`, falling back to
`strip().split()` when shlex raises, and read command / subcommand / args
off the token list. -/
def parse_context (cli_line : Tok) (cursor_pos : Int) : ParsedContext :=
  let pl := pySlice cli_line cursor_pos
  let tokens :=
    match shlexSplit pl with
    | some ts => ts
    | none => pySplit (pyStrip pl)
  match tokens with
  | [] => ⟨none, none, []⟩
  | c :: rest => ⟨some c, rest.head?, rest.drop 1⟩

/-- Unfolding lemma: dict lookup on a cons cell. -/
theorem dictLookup_cons (p : Tok × CacheEntry) (t : List (Tok × CacheEntry)) (k : Tok) :
    dictLookup (p :: t) k = if p.1 = k then some p.2 else dictLookup t k := by
  by_cases h : p.1 = k <;> simp [dictLookup, List.find?_cons, h]

/-- In-place update of a present key is seen by a lookup of that key. -/
theorem dictLookup_update_self (l : List (Tok × CacheEntry)) (k : Tok) (e' : CacheEntry)
    (h : (dictLookup l k).isSome) :
    dictLookup (l.map (fun p => if p.1 = k then (p.1, e') else p)) k = some e' := by
  induction l with
  | nil => simp [dictLookup] at h
  | cons p t ih =>
    by_cases hp : p.1 = k
    · simp [dictLookup_cons, hp, List.map_cons]
    · rw [dictLookup_cons, if_neg hp] at h
      simpa [dictLookup_cons, List.map_cons, hp] using ih h

/-- In-place update of one key leaves the lookup of every other key alone. -/
theorem dictLookup_update_other (l : List (Tok × CacheEntry)) (k : Tok) (e' : CacheEntry)
    (k2 : Tok) (hne : k2 ≠ k) :
    dictLookup (l.map (fun p => if p.1 = k then (p.1, e') else p)) k2 = dictLookup l k2 := by
  induction l with
  | nil => simp
  | cons p t ih =>
    by_cases hp : p.1 = k
    · have h2 : k ≠ k2 := fun hh => hne hh.symm
      simp [dictLookup_cons, List.map_cons, hp, h2, ih]
    · simp [dictLookup_cons, List.map_cons, hp, ih]

/-- In-place update preserves the key sequence. -/
theorem map_fst_update (l : List (Tok × CacheEntry)) (k : Tok) (e' : CacheEntry) :
    (l.map (fun p => if p.1 = k then (p.1, e') else p)).map Prod.fst = l.map Prod.fst := by
  rw [List.map_map]
  congr 1
  funext p
  by_cases hp : p.1 = k <;> simp [hp]

/-- C10 (confirmed): a cache `get` on a present key returns that entry's
suggestions and changes only its `last_used` and `hit_count` fields,
incrementing the hit counter by exactly one; the suggestions, `created`
and `ttl` of the entry are untouched, the key sequence is unchanged (no
entry added, removed or reordered), every other key still maps to its old
entry, and the backing store and size bound are untouched. -/
theorem get_hit_frame (cm : CacheManager) (k : Tok) (now : Nat) (e : CacheEntry)
    (h : dictLookup cm.cache k = some e) :
    (CacheManager.get cm k now).1 = some e.suggestions ∧
    dictLookup (CacheManager.get cm k now).2.cache k =
      some { e with last_used := now, hit_count := e.hit_count + 1 } ∧
    (∀ k2, k2 ≠ k →
      dictLookup (CacheManager.get cm k now).2.cache k2 = dictLookup cm.cache k2) ∧
    (CacheManager.get cm k now).2.cache.map Prod.fst = cm.cache.map Prod.fst ∧
    (CacheManager.get cm k now).2.stored = cm.stored ∧
    (CacheManager.get cm k now).2.max_size = cm.max_size := by
  unfold CacheManager.get
  rw [h]
  refine ⟨rfl, ?_, ?_, ?_, rfl, rfl⟩
  · exact dictLookup_update_self cm.cache k _ (by rw [h]; rfl)
  · exact fun k2 hk2 => dictLookup_update_other cm.cache k _ k2 hk2
  · exact map_fst_update cm.cache k _

/-- Witness for C10 at a concrete cache state. -/
theorem get_hit_frame_witness :
    ((CacheManager.get ⟨1000, [(strL "g", ⟨[strL "s"], 2, 3, 4, 60⟩)], []⟩ (strL "g") 9).1 =
      some [strL "s"] ∧
    dictLookup (CacheManager.get ⟨1000, [(strL "g", ⟨[strL "s"], 2, 3, 4, 60⟩)], []⟩ (strL "g") 9).2.cache (strL "g") =
      some ⟨[strL "s"], 2, 9, 5, 60⟩ ∧
    (∀ k2, k2 ≠ strL "g" →
      dictLookup (CacheManager.get ⟨1000, [(strL "g", ⟨[strL "s"], 2, 3, 4, 60⟩)], []⟩ (strL "g") 9).2.cache k2 =
      dictLookup [(strL "g", ⟨[strL "s"], 2, 3, 4, 60⟩)] k2) ∧
    (CacheManager.get ⟨1000, [(strL "g", ⟨[strL "s"], 2, 3, 4, 60⟩)], []⟩ (strL "g") 9).2.cache.map Prod.fst =
      [(strL "g", (⟨[strL "s"], 2, 3, 4, 60⟩ : CacheEntry))].map Prod.fst ∧
    (CacheManager.get ⟨1000, [(strL "g", ⟨[strL "s"], 2, 3, 4, 60⟩)], []⟩ (strL "g") 9).2.stored = [] ∧
    (CacheManager.get ⟨1000, [(strL "g", ⟨[strL "s"], 2, 3, 4, 60⟩)], []⟩ (strL "g") 9).2.max_size = 1000) :=
  get_hit_frame ⟨1000, [(strL "g", ⟨[strL "s"], 2, 3, 4, 60⟩)], []⟩ (strL "g") 9
    ⟨[strL "s"], 2, 3, 4, 60⟩ (by rfl)

/-- C3 (code bug): `CacheManager.get` performs no expiry check, so an
entry whose age exceeds its time-to-live is still returned.  Failing
input: an entry created at time 0 with ttl 3600, read at time 1000000 —
the read is a hit although the age 1000000 exceeds the ttl. -/
theorem get_returns_expired_entry :
    (CacheManager.get ⟨1000, [(strL "k", ⟨[strL "x"], 0, 0, 0, 3600⟩)], []⟩ (strL "k") 1000000).1 =
      some [strL "x"] ∧
    (1000000 : Int) - 0 > 3600 := by
  exact ⟨rfl, by decide⟩

/-- The eviction comparison is transitive. -/
theorem leLastUsed_trans (a b c : Tok × CacheEntry) :
    leLastUsed a b = true → leLastUsed b c = true → leLastUsed a c = true := by
  simp only [leLastUsed, decide_eq_true_eq]
  omega

/-- The eviction comparison is total. -/
theorem leLastUsed_total (a b : Tok × CacheEntry) :
    (leLastUsed a b || leLastUsed b a) = true := by
  simp only [leLastUsed, Bool.or_eq_true, decide_eq_true_eq]
  omega

/-- The cache contents after a `set`: the dict after insertion, sliced to
`sorted_items[-max_size:]` when it got too large. -/
theorem set_cache_eq (cm : CacheManager) (k : Tok) (sugg : List Tok) (ttl now : Nat) :
    (CacheManager.set cm k sugg ttl now).cache =
      if (dictInsert cm.cache k ⟨sugg, now, now, 0, ttl⟩).length > cm.max_size then
        pySuffix ((dictInsert cm.cache k ⟨sugg, now, now, 0, ttl⟩).mergeSort leLastUsed)
          cm.max_size
      else dictInsert cm.cache k ⟨sugg, now, now, 0, ttl⟩ := by
  unfold CacheManager.set CacheManager.save CacheManager.cleanup
  by_cases h : (dictInsert cm.cache k ⟨sugg, now, now, 0, ttl⟩).length > cm.max_size <;>
    simp [h]

/-- For a positive count the Python suffix slice is an ordinary drop. -/
theorem pySuffix_of_ne_zero {α : Type} (l : List α) (n : Nat) (h : n ≠ 0) :
    pySuffix l n = l.drop (l.length - n) := by
  unfold pySuffix
  rw [if_neg h]

/-- C4 amended: for a positive configured maximum, after every `set` the
cache holds at most `max_size` entries, and whenever the insertion
pushed the count above `max_size`, what is retained is the suffix of the
entries sorted by `last_used` ascending: exactly `max_size` entries
remain and every dropped entry has a `last_used` timestamp at most that
of every retained one.  (At `max_size = 0` the Python slice `[-0:]`
keeps everything and the bound fails — see the counterexample.) -/
theorem set_size_bound_and_eviction (cm : CacheManager) (k : Tok) (sugg : List Tok)
    (ttl now : Nat) (hpos : 0 < cm.max_size) :
    (CacheManager.set cm k sugg ttl now).cache.length ≤ cm.max_size ∧
    ((dictInsert cm.cache k ⟨sugg, now, now, 0, ttl⟩).length > cm.max_size →
      ∃ dropped,
        (dictInsert cm.cache k ⟨sugg, now, now, 0, ttl⟩).mergeSort leLastUsed =
          dropped ++ (CacheManager.set cm k sugg ttl now).cache ∧
        (CacheManager.set cm k sugg ttl now).cache.length = cm.max_size ∧
        ∀ d ∈ dropped, ∀ r ∈ (CacheManager.set cm k sugg ttl now).cache,
          d.2.last_used ≤ r.2.last_used) := by
  have hlen : ((dictInsert cm.cache k ⟨sugg, now, now, 0, ttl⟩).mergeSort leLastUsed).length =
      (dictInsert cm.cache k ⟨sugg, now, now, 0, ttl⟩).length :=
    (List.mergeSort_perm _ leLastUsed).length_eq
  rw [set_cache_eq]
  by_cases h : (dictInsert cm.cache k ⟨sugg, now, now, 0, ttl⟩).length > cm.max_size
  · rw [if_pos h, pySuffix_of_ne_zero _ _ (by omega), hlen]
    refine ⟨by rw [List.length_drop, hlen]; omega, fun _ => ?_⟩
    refine ⟨(List.mergeSort (dictInsert cm.cache k ⟨sugg, now, now, 0, ttl⟩) leLastUsed).take
      ((dictInsert cm.cache k ⟨sugg, now, now, 0, ttl⟩).length - cm.max_size),
      (List.take_append_drop _ _).symm, by rw [List.length_drop, hlen]; omega, ?_⟩
    intro d hd r hr
    have hsorted := List.sorted_mergeSort leLastUsed_trans leLastUsed_total
      (dictInsert cm.cache k ⟨sugg, now, now, 0, ttl⟩)
    rw [← List.take_append_drop
      ((dictInsert cm.cache k ⟨sugg, now, now, 0, ttl⟩).length - cm.max_size)
      (List.mergeSort (dictInsert cm.cache k ⟨sugg, now, now, 0, ttl⟩) leLastUsed)] at hsorted
    have hcross := (List.pairwise_append.mp hsorted).2.2 d hd r hr
    simpa only [leLastUsed, decide_eq_true_eq] using hcross
  · rw [if_neg h]
    exact ⟨by omega, fun hc => absurd hc h⟩

/-- Witness for C4: a cache of capacity 1 holding one entry receives a
second key; the older entry is evicted. -/
theorem set_size_bound_and_eviction_witness :
    (CacheManager.set ⟨1, [(strL "a", ⟨[], 0, 10, 0, 3600⟩)], []⟩ (strL "b") [strL "s"] 60 7).cache.length ≤ 1 ∧
    ∃ dropped,
      (dictInsert [(strL "a", ⟨[], 0, 10, 0, 3600⟩)] (strL "b") ⟨[strL "s"], 7, 7, 0, 60⟩).mergeSort leLastUsed =
        dropped ++ (CacheManager.set ⟨1, [(strL "a", ⟨[], 0, 10, 0, 3600⟩)], []⟩ (strL "b") [strL "s"] 60 7).cache ∧
      (CacheManager.set ⟨1, [(strL "a", ⟨[], 0, 10, 0, 3600⟩)], []⟩ (strL "b") [strL "s"] 60 7).cache.length = 1 ∧
      ∀ d ∈ dropped,
        ∀ r ∈ (CacheManager.set ⟨1, [(strL "a", ⟨[], 0, 10, 0, 3600⟩)], []⟩ (strL "b") [strL "s"] 60 7).cache,
          d.2.last_used ≤ r.2.last_used :=
  ⟨(set_size_bound_and_eviction ⟨1, [(strL "a", ⟨[], 0, 10, 0, 3600⟩)], []⟩ (strL "b") [strL "s"] 60 7
      (by decide)).1,
   (set_size_bound_and_eviction ⟨1, [(strL "a", ⟨[], 0, 10, 0, 3600⟩)], []⟩ (strL "b") [strL "s"] 60 7
      (by decide)).2 (by decide)⟩

/-- C4 counterexample: with a configured maximum of 0, Python's slice
`sorted_items[-0:]` keeps every entry, so after a `set` the cache holds
one entry — more than the configured maximum — and nothing is evicted. -/
theorem set_size_bound_fails_at_zero_max :
    (CacheManager.set ⟨0, [], []⟩ (strL "k") [strL "x"] 3600 5).cache.length = 1 ∧
    ¬((CacheManager.set ⟨0, [], []⟩ (strL "k") [strL "x"] 3600 5).cache.length ≤ 0) := by
  have h1 : (CacheManager.set ⟨0, [], []⟩ (strL "k") [strL "x"] 3600 5).cache.length = 1 := by
    rw [set_cache_eq]
    rw [if_pos (by decide)]
    unfold pySuffix
    rw [if_pos rfl]
    rw [(List.mergeSort_perm _ leLastUsed).length_eq]
    decide
  exact ⟨h1, by omega⟩

/-- C8 amended: `set`, `clear`, and `invalidate` of a present key all end
with the backing store equal to the in-memory cache (they call
`_save_cache`); the amendment is that a `get` hit, although it mutates
the entry, does not persist. -/
theorem mutations_persist (cm : CacheManager) (k : Tok) (sugg : List Tok) (ttl now : Nat) :
    (CacheManager.set cm k sugg ttl now).stored = (CacheManager.set cm k sugg ttl now).cache ∧
    (CacheManager.clear cm).stored = (CacheManager.clear cm).cache ∧
    ((dictLookup cm.cache k).isSome →
      (CacheManager.invalidate cm k).stored = (CacheManager.invalidate cm k).cache) := by
  refine ⟨rfl, rfl, fun h => ?_⟩
  unfold CacheManager.invalidate
  rw [if_pos h]
  rfl

/-- Witness for C8's amended theorem at a concrete state with a present key. -/
theorem mutations_persist_witness :
    (CacheManager.set ⟨1000, [(strL "k", ⟨[strL "x"], 0, 0, 0, 3600⟩)], []⟩ (strL "k") [strL "s"] 60 5).stored =
      (CacheManager.set ⟨1000, [(strL "k", ⟨[strL "x"], 0, 0, 0, 3600⟩)], []⟩ (strL "k") [strL "s"] 60 5).cache ∧
    (CacheManager.clear ⟨1000, [(strL "k", ⟨[strL "x"], 0, 0, 0, 3600⟩)], []⟩).stored =
      (CacheManager.clear ⟨1000, [(strL "k", ⟨[strL "x"], 0, 0, 0, 3600⟩)], []⟩).cache ∧
    (CacheManager.invalidate ⟨1000, [(strL "k", ⟨[strL "x"], 0, 0, 0, 3600⟩)], []⟩ (strL "k")).stored =
      (CacheManager.invalidate ⟨1000, [(strL "k", ⟨[strL "x"], 0, 0, 0, 3600⟩)], []⟩ (strL "k")).cache :=
  ⟨(mutations_persist ⟨1000, [(strL "k", ⟨[strL "x"], 0, 0, 0, 3600⟩)], []⟩ (strL "k") [strL "s"] 60 5).1,
   (mutations_persist ⟨1000, [(strL "k", ⟨[strL "x"], 0, 0, 0, 3600⟩)], []⟩ (strL "k") [strL "s"] 60 5).2.1,
   (mutations_persist ⟨1000, [(strL "k", ⟨[strL "x"], 0, 0, 0, 3600⟩)], []⟩ (strL "k") [strL "s"] 60 5).2.2
     (by decide)⟩

/-- C8 counterexample: a `get` hit refreshes the entry in memory but
leaves the backing store stale, so not every mutating operation persists:
after the hit the store differs from the in-memory cache. -/
theorem get_hit_does_not_persist :
    (CacheManager.get ⟨1000, [(strL "k", ⟨[strL "x"], 0, 0, 0, 3600⟩)],
        [(strL "k", ⟨[strL "x"], 0, 0, 0, 3600⟩)]⟩ (strL "k") 5).2.cache ≠
      [(strL "k", ⟨[strL "x"], 0, 0, 0, 3600⟩)] ∧
    (CacheManager.get ⟨1000, [(strL "k", ⟨[strL "x"], 0, 0, 0, 3600⟩)],
        [(strL "k", ⟨[strL "x"], 0, 0, 0, 3600⟩)]⟩ (strL "k") 5).2.stored =
      [(strL "k", ⟨[strL "x"], 0, 0, 0, 3600⟩)] ∧
    (CacheManager.get ⟨1000, [(strL "k", ⟨[strL "x"], 0, 0, 0, 3600⟩)],
        [(strL "k", ⟨[strL "x"], 0, 0, 0, 3600⟩)]⟩ (strL "k") 5).2.stored ≠
    (CacheManager.get ⟨1000, [(strL "k", ⟨[strL "x"], 0, 0, 0, 3600⟩)],
        [(strL "k", ⟨[strL "x"], 0, 0, 0, 3600⟩)]⟩ (strL "k") 5).2.cache := by
  refine ⟨by decide, rfl, by decide⟩

/-- A `get` on an absent key is a miss and leaves the state unchanged. -/
theorem get_of_lookup_none (cm : CacheManager) (k : Tok) (now : Nat)
    (h : dictLookup cm.cache k = none) :
    CacheManager.get cm k now = (none, cm) := by
  unfold CacheManager.get
  rw [h]

/-- `predict_rule_based` on a cache miss: the returned list is the raw
candidates filtered by a non-empty `current_word` and then ranked, and
the state is the `set` of that very list under the context's key. -/
theorem predict_rule_based_miss (ctx : CommandContext) (cm : CacheManager) (now : Nat)
    (h : dictLookup cm.cache (create_cache_key ctx) = none) :
    predict_rule_based ctx cm now =
      (rank_suggestions
        (if ctx.current_word ≠ [] then filter_suggestions (rawCandidates ctx) ctx.current_word
         else rawCandidates ctx) ctx.current_word,
       CacheManager.set cm (create_cache_key ctx)
        (rank_suggestions
          (if ctx.current_word ≠ [] then filter_suggestions (rawCandidates ctx) ctx.current_word
           else rawCandidates ctx) ctx.current_word) 3600 now) := by
  unfold predict_rule_based
  rw [get_of_lookup_none cm (create_cache_key ctx) now h]

/-- A key that lookup misses fails the membership test of `dictInsert`. -/
theorem any_key_eq_false_of_lookup_none (l : List (Tok × CacheEntry)) (k : Tok)
    (h : dictLookup l k = none) : l.any (fun p => p.1 = k) = false := by
  induction l with
  | nil => rfl
  | cons p t ih =>
    rw [dictLookup_cons] at h
    by_cases hp : p.1 = k
    · rw [if_pos hp] at h
      exact absurd h (by simp)
    · rw [if_neg hp] at h
      simp [List.any_cons, hp, ih h]

/-- Appending a fresh key to a dict that misses it makes lookup find it. -/
theorem dictLookup_append_single_self (l : List (Tok × CacheEntry)) (k : Tok) (e : CacheEntry)
    (h : dictLookup l k = none) : dictLookup (l ++ [(k, e)]) k = some e := by
  induction l with
  | nil => simp [dictLookup_cons]
  | cons p t ih =>
    rw [dictLookup_cons] at h
    by_cases hp : p.1 = k
    · rw [if_pos hp] at h
      exact absurd h (by simp)
    · rw [if_neg hp] at h
      rw [List.cons_append, dictLookup_cons, if_neg hp]
      exact ih h

/-- C1 amended: on a cache miss with room to spare, `predict_rule_based`
stores under the context's key the *filtered and ranked* suggestion list
it returns — filtering by `current_word` happens before storage, not
after retrieval, so the cached value is word-dependent. -/
theorem predict_stores_filtered_not_raw (ctx : CommandContext) (cm : CacheManager) (now : Nat)
    (hmiss : dictLookup cm.cache (create_cache_key ctx) = none)
    (hroom : cm.cache.length < cm.max_size) :
    (predict_rule_based ctx cm now).1 =
      rank_suggestions
        (if ctx.current_word ≠ [] then filter_suggestions (rawCandidates ctx) ctx.current_word
         else rawCandidates ctx) ctx.current_word ∧
    dictLookup (predict_rule_based ctx cm now).2.cache (create_cache_key ctx) =
      some ⟨(predict_rule_based ctx cm now).1, now, now, 0, 3600⟩ := by
  rw [predict_rule_based_miss ctx cm now hmiss]
  dsimp only
  refine ⟨rfl, ?_⟩
  rw [set_cache_eq]
  have hins : dictInsert cm.cache (create_cache_key ctx)
      ⟨rank_suggestions
        (if ctx.current_word ≠ [] then filter_suggestions (rawCandidates ctx) ctx.current_word
         else rawCandidates ctx) ctx.current_word, now, now, 0, 3600⟩ =
      cm.cache ++ [(create_cache_key ctx,
        ⟨rank_suggestions
          (if ctx.current_word ≠ [] then filter_suggestions (rawCandidates ctx) ctx.current_word
           else rawCandidates ctx) ctx.current_word, now, now, 0, 3600⟩)] := by
    unfold dictInsert
    rw [any_key_eq_false_of_lookup_none cm.cache (create_cache_key ctx) hmiss]
    simp
  rw [hins, if_neg (by rw [List.length_append]; simp only [List.length_cons, List.length_nil]; omega)]
  exact dictLookup_append_single_self cm.cache (create_cache_key ctx) _ hmiss

/-- Bucket 0 of `rank_suggestions` holds exactly the case-insensitive
matches of the current word. -/
theorem rankBucket_eq_zero (c s : Tok) (h : rankBucket c s = 0) : lower s = c := by
  by_cases h0 : lower s = c
  · exact h0
  · exfalso
    unfold rankBucket at h
    rw [if_neg h0] at h
    cases h1 : c.isPrefixOf (lower s) <;> simp [h1] at h

/-- Buckets 1 and 2 of `rank_suggestions` hold no case-insensitive match. -/
theorem rankBucket_pos_ne (c s : Tok) (h : rankBucket c s ≠ 0) : lower s ≠ c :=
  fun he => h (by unfold rankBucket; rw [if_pos he])

/-- C2 amended: on the cache-miss path, for a non-empty `current_word`
the list returned by `predict_rule_based` splits into a block of
candidates case-insensitively equal to the current word followed by a
block of candidates not equal to it, and every returned candidate starts
with the current word case-insensitively.  (The cache-hit path, dropped
from the original claim, returns the stored list unchanged.) -/
theorem predict_miss_ranking_law (ctx : CommandContext) (cm : CacheManager) (now : Nat)
    (hcw : ctx.current_word ≠ [])
    (hmiss : dictLookup cm.cache (create_cache_key ctx) = none) :
    ∃ eqs rest, (predict_rule_based ctx cm now).1 = eqs ++ rest ∧
      (∀ s ∈ eqs, lower s = lower ctx.current_word) ∧
      (∀ s ∈ rest, lower s ≠ lower ctx.current_word) ∧
      (∀ s ∈ (predict_rule_based ctx cm now).1,
        (lower ctx.current_word).isPrefixOf (lower s) = true) := by
  rw [predict_rule_based_miss ctx cm now hmiss]
  dsimp only
  rw [if_pos hcw]
  have hsub : ∀ s ∈ filter_suggestions (rawCandidates ctx) ctx.current_word,
      (lower ctx.current_word).isPrefixOf (lower s) = true := by
    intro s hs
    unfold filter_suggestions at hs
    rw [if_neg hcw] at hs
    exact (List.mem_filter.mp hs).2
  by_cases hnil : filter_suggestions (rawCandidates ctx) ctx.current_word = []
  · refine ⟨[], [], by rw [hnil]; rfl, by simp, by simp, ?_⟩
    rw [hnil]
    intro s hs
    simp [rank_suggestions] at hs
  · rw [rank_suggestions, if_neg hnil]
    refine ⟨_, _, List.append_assoc _ _ _, ?_, ?_, ?_⟩
    · intro s hs
      exact rankBucket_eq_zero _ _ (of_decide_eq_true (List.mem_filter.mp hs).2)
    · intro s hs
      rcases List.mem_append.mp hs with h1 | h2
      · exact rankBucket_pos_ne _ _ (by
          have := of_decide_eq_true (List.mem_filter.mp h1).2
          omega)
      · exact rankBucket_pos_ne _ _ (by
          have := of_decide_eq_true (List.mem_filter.mp h2).2
          omega)
    · intro s hs
      rcases List.mem_append.mp hs with h01 | h2
      · rcases List.mem_append.mp h01 with h0 | h1
        · exact hsub s (List.mem_filter.mp h0).1
        · exact hsub s (List.mem_filter.mp h1).1
      · exact hsub s (List.mem_filter.mp h2).1

/-- The context extracted from line `git comm` at cursor 8: the cursor is
at end-of-line after a non-space character, so the special case empties
`current_word`. -/
def ctxGitComm : CommandContext :=
  ⟨some (strL "git"), some (strL "comm"), [], [], 4, 8, [strL "git", strL "comm"]⟩

/-- The context extracted from line `git comm x` at cursor 8: same prefix
tokens, but the cursor is mid-line so `current_word` is `comm`. -/
def ctxGitCommW : CommandContext :=
  ⟨some (strL "git"), some (strL "comm"), [], strL "comm", 4, 8, [strL "git", strL "comm"]⟩

/-- C1 counterexample: two contexts from real inputs share command,
subcommand and args (hence the cache key) but differ in `current_word`,
and `predict_rule_based` caches different lists for them — the cached
value for the second is the filtered list `[commit]`, not the raw
candidate set — so the cache does not store a word-agnostic raw set. -/
theorem cache_value_depends_on_current_word :
    extract_command_context (strL "git comm") 8 = some ctxGitComm ∧
    extract_command_context (strL "git comm x") 8 = some ctxGitCommW ∧
    ctxGitComm.command = ctxGitCommW.command ∧
    ctxGitComm.subcommand = ctxGitCommW.subcommand ∧
    ctxGitComm.args = ctxGitCommW.args ∧
    ctxGitComm.current_word ≠ ctxGitCommW.current_word ∧
    create_cache_key ctxGitComm = create_cache_key ctxGitCommW ∧
    (dictLookup (predict_rule_based ctxGitCommW emptyCM 0).2.cache
        (create_cache_key ctxGitCommW)).map (fun e => e.suggestions) =
      some [strL "commit"] ∧
    [strL "commit"] ≠ rawCandidates ctxGitCommW ∧
    (dictLookup (predict_rule_based ctxGitComm emptyCM 0).2.cache
        (create_cache_key ctxGitComm)).map (fun e => e.suggestions) ≠
      (dictLookup (predict_rule_based ctxGitCommW emptyCM 0).2.cache
        (create_cache_key ctxGitCommW)).map (fun e => e.suggestions) := by
  refine ⟨rfl, rfl, rfl, rfl, rfl, by decide, rfl, by decide, by decide, by decide⟩

/-- Witness for C1's amended theorem at the `git comm x` context on an
empty cache. -/
theorem predict_stores_filtered_not_raw_witness :
    (predict_rule_based ctxGitCommW emptyCM 0).1 =
      rank_suggestions
        (if ctxGitCommW.current_word ≠ [] then
          filter_suggestions (rawCandidates ctxGitCommW) ctxGitCommW.current_word
         else rawCandidates ctxGitCommW) ctxGitCommW.current_word ∧
    dictLookup (predict_rule_based ctxGitCommW emptyCM 0).2.cache
        (create_cache_key ctxGitCommW) =
      some ⟨(predict_rule_based ctxGitCommW emptyCM 0).1, 0, 0, 0, 3600⟩ :=
  predict_stores_filtered_not_raw ctxGitCommW emptyCM 0 rfl (by decide)

/-- C2 counterexample: after predicting for the `git comm` context (empty
current word, which caches the unfiltered 7-element list), predicting for
the `git comm x` context (current word `comm`, same cache key) hits the
cache and returns `-m`, which does not start with `comm` — the ranking
law fails on the cache-hit path. -/
theorem cache_hit_breaks_ranking_law :
    extract_command_context (strL "git comm") 8 = some ctxGitComm ∧
    extract_command_context (strL "git comm x") 8 = some ctxGitCommW ∧
    ctxGitCommW.current_word = strL "comm" ∧
    (strL "-m") ∈ (predict_rule_based ctxGitCommW
      (predict_rule_based ctxGitComm emptyCM 0).2 1).1 ∧
    (lower ctxGitCommW.current_word).isPrefixOf (lower (strL "-m")) = false := by
  refine ⟨rfl, rfl, rfl, by decide, by decide⟩

/-- Witness for C2's amended theorem at the `git comm x` context on an
empty cache. -/
theorem predict_miss_ranking_law_witness :
    ∃ eqs rest, (predict_rule_based ctxGitCommW emptyCM 0).1 = eqs ++ rest ∧
      (∀ s ∈ eqs, lower s = lower ctxGitCommW.current_word) ∧
      (∀ s ∈ rest, lower s ≠ lower ctxGitCommW.current_word) ∧
      (∀ s ∈ (predict_rule_based ctxGitCommW emptyCM 0).1,
        (lower ctxGitCommW.current_word).isPrefixOf (lower s) = true) :=
  predict_miss_ranking_law ctxGitCommW emptyCM 0 (by decide) rfl

/-- C6 amended: for input `git comm` with cursor 8 the extracted context
has `current_word = ""` (the end-of-line special case fires) and
`subcommand = "comm"`; the matching-subcommand subset is `[commit]`; and
`predict_rule_based` on an empty cache returns the unfiltered list
`[commit, -m, --message, --amend, --signoff, -a, --all]`. -/
theorem git_comm_scenario_actual :
    extract_command_context (strL "git comm") 8 = some ctxGitComm ∧
    ctxGitComm.current_word = [] ∧
    ctxGitComm.subcommand = some (strL "comm") ∧
    (alGetD COMMANDS (strL "git") ⟨[], []⟩).subcommands.filter
      (fun s => (strL "comm").isPrefixOf s) = [strL "commit"] ∧
    (predict_rule_based ctxGitComm emptyCM 0).1 =
      [strL "commit", strL "-m", strL "--message", strL "--amend", strL "--signoff",
       strL "-a", strL "--all"] := by
  refine ⟨rfl, rfl, rfl, by decide, by decide⟩

/-- C6 counterexample: the claimed scenario fails — `current_word` is not
`comm` (the special case empties it) and the final prediction is not
`[commit]`. -/
theorem git_comm_scenario_counterexample :
    extract_command_context (strL "git comm") 8 = some ctxGitComm ∧
    ctxGitComm.current_word ≠ strL "comm" ∧
    (predict_rule_based ctxGitComm emptyCM 0).1 ≠ [strL "commit"] := by
  refine ⟨rfl, by decide, by decide⟩

/-- The context extracted from line `git a|b c ` at cursor 10: the
subcommand token contains the cache-key separator. -/
def ctxBar : CommandContext :=
  ⟨some (strL "git"), some (strL "a|b"), [strL "c"], [], 10, 10,
   [strL "git", strL "a|b", strL "c"]⟩

/-- The context extracted from line `git a b c ` at cursor 10. -/
def ctxNoBar : CommandContext :=
  ⟨some (strL "git"), some (strL "a"), [strL "b", strL "c"], [], 10, 10,
   [strL "git", strL "a", strL "b", strL "c"]⟩

/-- C7 counterexample: the tokenizer passes the separator `|` through
unescaped, and two real inputs with different (command, subcommand, args)
triples collide on the cache key `git|a|b|c`. -/
theorem cache_key_collision :
    tokenize_command_line (strL "git a|b c") = [strL "git", strL "a|b", strL "c"] ∧
    extract_command_context (strL "git a|b c ") 10 = some ctxBar ∧
    extract_command_context (strL "git a b c ") 10 = some ctxNoBar ∧
    (ctxBar.command, ctxBar.subcommand, ctxBar.args) ≠
      (ctxNoBar.command, ctxNoBar.subcommand, ctxNoBar.args) ∧
    create_cache_key ctxBar = create_cache_key ctxNoBar := by
  refine ⟨rfl, rfl, rfl, by decide, rfl⟩

/-- C7 amended: the cache key is a deterministic function of the
(command, subcommand, args) triple — contexts agreeing on the triple
share a key — but it is not injective, because the separator can occur
inside tokens (see the collision counterexample). -/
theorem cache_key_deterministic (c1 c2 : CommandContext)
    (hc : c1.command = c2.command) (hs : c1.subcommand = c2.subcommand)
    (ha : c1.args = c2.args) :
    create_cache_key c1 = create_cache_key c2 := by
  unfold create_cache_key
  rw [hc, hs, ha]

/-- Witness for C7's amended theorem: two concrete contexts with equal
triples but different current words share a key. -/
theorem cache_key_deterministic_witness :
    create_cache_key ctxGitComm = create_cache_key ctxGitCommW :=
  cache_key_deterministic ctxGitComm ctxGitCommW rfl rfl rfl

/-- The backward word-start scan never moves past its starting index. -/
theorem wordStartGo_le (line : Tok) : ∀ n ws, ws ≤ n → wordStartGo line n ws ≤ n := by
  intro n
  induction n with
  | zero =>
    intro ws h
    simpa [wordStartGo] using h
  | succ i ih =>
    intro ws _
    unfold wordStartGo
    by_cases hsp : pyIsSpace (line.getD i 'a') = true
    · rw [if_pos hsp]
    · rw [if_neg hsp]
      exact Nat.le_trans (ih i (Nat.le_refl i)) (Nat.le_succ i)

/-- The forward word-end scan never moves below its starting index. -/
theorem wordEndScan_ge : ∀ (l : List Char) (i : Nat), i ≤ wordEndScan l i := by
  intro l
  induction l with
  | nil =>
    intro i
    simp [wordEndScan]
  | cons c rest ih =>
    intro i
    unfold wordEndScan
    by_cases hsp : pyIsSpace c = true
    · rw [if_pos hsp]
    · rw [if_neg hsp]
      exact Nat.le_trans (Nat.le_succ i) (ih (i + 1))

/-- C5 amended: for every line and in-range cursor the extractor returns
a context with `word_start ≤ cursor ≤ word_end`, and `current_word` is
the slice `line[word_start:word_end]` except possibly at end-of-line,
where the special case may force it empty. -/
theorem extract_word_bounds (line : Tok) (cursor : Int)
    (h0 : 0 ≤ cursor) (hle : cursor.toNat ≤ line.length) :
    ∃ ctx, extract_command_context line cursor = some ctx ∧
      ctx.word_start ≤ cursor.toNat ∧ cursor.toNat ≤ ctx.word_end ∧
      (ctx.current_word =
        (line.drop ctx.word_start).take (ctx.word_end - ctx.word_start) ∨
       (ctx.current_word = [] ∧ cursor.toNat = line.length)) := by
  by_cases hL : line = []
  · subst hL
    simp only [List.length_nil, Nat.le_zero] at hle
    refine ⟨⟨none, none, [], [], 0, 0, []⟩, ?_, Nat.zero_le _, by omega, Or.inl (by simp)⟩
    unfold extract_command_context
    rw [if_pos (Or.inl rfl)]
  · have hcond : ¬(line = [] ∨ cursor < 0) := by
      push_neg
      exact ⟨hL, h0⟩
    simp only [extract_command_context]
    rw [if_neg hcond, if_pos hle]
    refine ⟨_, rfl, ?_, ?_, ?_⟩
    · exact wordStartGo_le line cursor.toNat cursor.toNat (Nat.le_refl _)
    · exact wordEndScan_ge (line.drop cursor.toNat) cursor.toNat
    · dsimp only
      split_ifs with h1 h2
      · exact Or.inr ⟨rfl, h1.1⟩
      · exact Or.inl rfl
      · exact Or.inl rfl

/-- Witness for C5's amended theorem at line `git co`, cursor 5. -/
theorem extract_word_bounds_witness :
    ∃ ctx, extract_command_context (strL "git co") 5 = some ctx ∧
      ctx.word_start ≤ (5 : Int).toNat ∧ (5 : Int).toNat ≤ ctx.word_end ∧
      (ctx.current_word =
        ((strL "git co").drop ctx.word_start).take (ctx.word_end - ctx.word_start) ∨
       (ctx.current_word = [] ∧ (5 : Int).toNat = (strL "git co").length)) :=
  extract_word_bounds (strL "git co") 5 (by decide) (by decide)

/-- C5 counterexample: at line `git`, cursor 3, the extractor reports
`word_start = 0`, `word_end = 3` but `current_word = ""`, which differs
from the slice `line[0:3] = "git"` — the end-of-line special case breaks
the claimed equality. -/
theorem extract_current_word_slice_counterexample :
    extract_command_context (strL "git") 3 =
      some ⟨some (strL "git"), none, [], [], 0, 3, [strL "git"]⟩ ∧
    ((strL "git").drop 0).take (3 - 0) = strL "git" ∧
    ([] : Tok) ≠ strL "git" := by
  refine ⟨rfl, rfl, by decide⟩

/-- Characters on which both tokenizers are quote-free and agree on
whitespace: either one of the four shlex whitespace characters, or a
plain character that is no quote, no backslash and no Python whitespace
(this excludes `\x0b`/`\x0c`, which Python `isspace` accepts but shlex
treats as word characters). -/
abbrev goodChar (c : Char) : Prop :=
  c ∈ shlexWs ∨ (c ≠ dquote ∧ c ≠ squote ∧ c ≠ bslash ∧ pyIsSpace c = false)

/-- The four shlex whitespace characters are Python whitespace and are
neither quotes nor backslash. -/
theorem shlexWs_facts (c : Char) (h : c ∈ shlexWs) :
    pyIsSpace c = true ∧ c ≠ dquote ∧ c ≠ squote ∧ c ≠ bslash := by
  fin_cases h <;> decide

/-- On a quote-free suffix the custom tokenizer loop coincides with the
plain whitespace splitter. -/
theorem tokGo_eq_pySplitGo : ∀ (l : List Char) (toks : List Tok) (cur : Tok),
    (∀ c ∈ l, goodChar c) → tokGo l toks cur false none = pySplitGo l toks cur := by
  intro l
  induction l with
  | nil => intro toks cur _; rfl
  | cons c rest ih =>
    intro toks cur h
    have hc := h c (List.mem_cons_self c rest)
    have hrest : ∀ x ∈ rest, goodChar x := fun x hx => h x (List.mem_cons_of_mem c hx)
    simp only [tokGo, pySplitGo]
    rcases hc with cws | ⟨hd, hs, _, hps⟩
    · obtain ⟨hsp, hd, hs, _⟩ := shlexWs_facts c cws
      rw [if_neg (fun hor => hor.elim hd hs)]
      rw [if_pos (show pyIsSpace c = true ∧ ¬false = true from ⟨hsp, by simp⟩)]
      rw [if_pos hsp]
      by_cases hcur : cur = []
      · rw [if_pos hcur, if_pos hcur]
        exact ih toks [] hrest
      · rw [if_neg hcur, if_neg hcur]
        exact ih (toks ++ [cur]) [] hrest
    · rw [if_neg (fun hor => hor.elim hd hs)]
      rw [if_neg (show ¬(pyIsSpace c = true ∧ ¬false = true) from
        fun hx => by rw [hps] at hx; exact Bool.false_ne_true hx.1)]
      rw [if_neg (show ¬pyIsSpace c = true from by rw [hps]; exact Bool.false_ne_true)]
      exact ih toks (cur ++ [c]) hrest

/-- On quote-free input the custom tokenizer is the whitespace splitter. -/
theorem tokenize_eq_pySplit (l : Tok) (h : ∀ c ∈ l, goodChar c) :
    tokenize_command_line l = pySplit l := by
  unfold tokenize_command_line pySplit
  by_cases hl : l = []
  · subst hl
    rfl
  · rw [if_neg hl]
    exact tokGo_eq_pySplitGo l [] [] h

/-- On a quote-free, backslash-free suffix the shlex lexer succeeds and
also coincides with the plain whitespace splitter.  The current-token
correspondence is `none` ↔ empty buffer, `some t` (`t` non-empty) ↔
buffer `t`. -/
theorem shlexGo_plain_eq : ∀ (l : List Char) (toks : List Tok) (cur : Option Tok),
    (∀ c ∈ l, goodChar c) → cur ≠ some [] →
    shlexGo l .plain toks cur = some (pySplitGo l toks (cur.getD [])) := by
  intro l
  induction l with
  | nil =>
    intro toks cur _ hcur
    cases cur with
    | none => simp [shlexGo, pySplitGo]
    | some t =>
      have ht : t ≠ [] := fun hh => hcur (by rw [hh])
      simp [shlexGo, pySplitGo, ht]
  | cons c rest ih =>
    intro toks cur h hcur
    have hc := h c (List.mem_cons_self c rest)
    have hrest : ∀ x ∈ rest, goodChar x := fun x hx => h x (List.mem_cons_of_mem c hx)
    simp only [shlexGo, pySplitGo]
    rcases hc with cws | ⟨hd, hs, hb, hps⟩
    · obtain ⟨hsp, _, _, _⟩ := shlexWs_facts c cws
      rw [if_pos cws, if_pos hsp]
      cases cur with
      | none =>
        simpa using ih toks none hrest (by simp)
      | some t =>
        have ht : t ≠ [] := fun hh => hcur (by rw [hh])
        rw [if_neg (show ¬(Option.getD (some t) [] = []) from by simpa using ht)]
        simpa using ih (toks ++ [t]) none hrest (by simp)
    · have hnw : ¬(c ∈ shlexWs) := fun hmem => by
        have := (shlexWs_facts c hmem).1
        rw [hps] at this
        exact Bool.false_ne_true this
      rw [if_neg hnw]
      rw [if_neg (fun hor => hor.elim hd hs)]
      rw [if_neg hb]
      rw [if_neg (show ¬pyIsSpace c = true from by rw [hps]; exact Bool.false_ne_true)]
      simpa using ih toks (some (cur.getD [] ++ [c])) hrest (by simp)

/-- On quote-free, backslash-free input `shlex.split` succeeds and agrees
with the whitespace splitter. -/
theorem shlexSplit_eq_pySplit (l : Tok) (h : ∀ c ∈ l, goodChar c) :
    shlexSplit l = some (pySplit l) :=
  shlexGo_plain_eq l [] none h (by simp)

/-- C9 amended: on lines whose prefix up to the cursor is free of quote
and backslash characters (and uses only the common whitespace), the two
context-building paths agree: `parse_context` and
`extract_command_context` compute the same command, subcommand and args.
(On quoted input they diverge — see the counterexample.) -/
theorem parse_extract_agree_on_plain_lines (line : Tok) (cursor : Int)
    (h0 : 0 ≤ cursor) (hle : cursor.toNat ≤ line.length)
    (hgood : ∀ c ∈ line.take cursor.toNat, goodChar c) :
    ∃ ctx, extract_command_context line cursor = some ctx ∧
      parse_context line cursor = ⟨ctx.command, ctx.subcommand, ctx.args⟩ := by
  have hslice : pySlice line cursor = line.take cursor.toNat := by
    unfold pySlice
    rw [if_pos h0]
  have htok : shlexSplit (line.take cursor.toNat) =
      some (pySplit (line.take cursor.toNat)) := shlexSplit_eq_pySplit _ hgood
  have htk2 : tokenize_command_line (line.take cursor.toNat) =
      pySplit (line.take cursor.toNat) := tokenize_eq_pySplit _ hgood
  by_cases hL : line = []
  · subst hL
    refine ⟨⟨none, none, [], [], 0, 0, []⟩, ?_, ?_⟩
    · unfold extract_command_context
      rw [if_pos (Or.inl rfl)]
    · unfold parse_context
      rw [hslice]
      simp only [List.take_nil]
      rfl
  · have hcond : ¬(line = [] ∨ cursor < 0) := by
      push_neg
      exact ⟨hL, h0⟩
    simp only [extract_command_context]
    rw [if_neg hcond, if_pos hle]
    refine ⟨_, rfl, ?_⟩
    unfold parse_context
    rw [hslice]
    dsimp only
    rw [htok]
    dsimp only
    rw [htk2]
    cases pySplit (line.take cursor.toNat) with
    | nil => rfl
    | cons c rest =>
      cases rest with
      | nil => rfl
      | cons d rest2 => rfl

/-- Witness for C9's amended theorem at line `git co x`, cursor 6. -/
theorem parse_extract_agree_witness :
    ∃ ctx, extract_command_context (strL "git co x") 6 = some ctx ∧
      parse_context (strL "git co x") 6 = ⟨ctx.command, ctx.subcommand, ctx.args⟩ :=
  parse_extract_agree_on_plain_lines (strL "git co x") 6 (by decide) (by decide) (by decide)

/-- C9 counterexample: on the line `a'b` (an unclosed quote) the two
paths disagree — the custom tokenizer strips the quote and reports
command `ab`, while `parse_context` falls back to a plain whitespace
split and reports command `a'b`. -/
theorem parse_extract_disagree_on_quote :
    extract_command_context ['a', squote, 'b'] 3 =
      some ⟨some (strL "ab"), none, [], [], 0, 3, [strL "ab"]⟩ ∧
    parse_context ['a', squote, 'b'] 3 = ⟨some ['a', squote, 'b'], none, []⟩ ∧
    (⟨some (strL "ab"), none, []⟩ : ParsedContext) ≠
      ⟨some ['a', squote, 'b'], none, []⟩ := by
  refine ⟨rfl, rfl, by decide⟩
